import Mathlib

/-!
Verification development for the GetToken diagnostic tool.

The definitions below are shallow embeddings of the C++ sources:
strings become `List Char`, bytes become `Nat` values below 256,
machine integers become `Nat` (all intermediate base64 values stay far
below 2^32, so no wrap-around arithmetic occurs), code that throws
returns `Except`/flags, and the concurrent trace writer becomes an
explicit labelled transition system over its primitive atomic actions.
-/

namespace GetToken

/-- Helper: view a Lean string literal as the `List Char` used throughout. -/
def toL (s : String) : List Char := s.toList

/-! ## Base64 (src/unnamed/part_001, namespace base64) -/

namespace B64

/-- The constant `base64_chars` table. -/
def base64Chars : List Char :=
  ['A', 'B', 'C', 'D', 'E', 'F', 'G', 'H', 'I', 'J', 'K', 'L', 'M',
   'N', 'O', 'P', 'Q', 'R', 'S', 'T', 'U', 'V', 'W', 'X', 'Y', 'Z',
   'a', 'b', 'c', 'd', 'e', 'f', 'g', 'h', 'i', 'j', 'k', 'l', 'm',
   'n', 'o', 'p', 'q', 'r', 's', 't', 'u', 'v', 'w', 'x', 'y', 'z',
   '0', '1', '2', '3', '4', '5', '6', '7', '8', '9', '+', '/']

/-- Indexing `base64_chars[i]`; every index the encoder produces is below 64. -/
def b64Char (i : Nat) : Char := base64Chars.getD i 'A'

/-- The decoder's `base64_chars.find(c)`: index of the first occurrence, `none` for npos. -/
def b64Find (c : Char) : Option Nat := base64Chars.findIdx? (fun x => x == c)

/-- The while-loop of `base64::encode_into`, one recursive step per input byte.
State: `counter` and `bitStream` as in the source; `offset` carries the value
the C++ variable holds after the previous iteration (initially zero), which the
epilogue after the loop inspects to emit padding. -/
def encodeLoop (counter bitStream offset : Nat) : List Nat → List Char
  | [] =>
    (if offset = 16 then [b64Char ((bitStream >>> 12) &&& 0x3f), '=', '='] else []) ++
    (if offset = 8 then [b64Char ((bitStream >>> 6) &&& 0x3f), '='] else [])
  | b :: rest =>
    let off := 16 - counter % 3 * 8
    let bits := bitStream + (b <<< off)
    let out :=
      (if off = 16 then [b64Char ((bits >>> 18) &&& 0x3f)] else []) ++
      (if off = 8 then [b64Char ((bits >>> 12) &&& 0x3f)] else []) ++
      (if off = 0 ∧ counter ≠ 3 then
        [b64Char ((bits >>> 6) &&& 0x3f), b64Char (bits &&& 0x3f)] else []) ++
      encodeLoop (counter + 1) (if off = 0 ∧ counter ≠ 3 then 0 else bits) off rest
    out

/-- `base64::to_base64` / `encode_into` entry point. -/
def to_base64 (bytes : List Nat) : List Char := encodeLoop 0 0 0 bytes

/-- The for-loop of `base64::decode_into`, one recursive step per input char;
a character outside the alphabet that is not `=` throws. -/
def decodeLoop (counter bitStream : Nat) : List Char → Except String (List Nat)
  | [] => .ok []
  | c :: rest =>
    match b64Find c with
    | some numVal =>
      let off := 18 - counter % 4 * 6
      let bits := bitStream + (numVal <<< off)
      let out :=
        (if off = 12 then [(bits >>> 16) &&& 0xff] else []) ++
        (if off = 6 then [(bits >>> 8) &&& 0xff] else []) ++
        (if off = 0 ∧ counter ≠ 4 then [bits &&& 0xff] else [])
      match decodeLoop (counter + 1) (if off = 0 ∧ counter ≠ 4 then 0 else bits) rest with
      | .ok ds => .ok (out ++ ds)
      | .error e => .error e
    | none =>
      if c = '=' then decodeLoop (counter + 1) bitStream rest
      else .error "Invalid base64 encoded data"

/-- `base64::from_base64` / `decode_into` entry point. -/
def from_base64 (s : List Char) : Except String (List Nat) := decodeLoop 0 0 s

/-- `Util::decode_base64url` (src/unnamed/part_003): substitute the url
alphabet back, restore padding from the length mod 4, decode; a remainder
of 1 throws. -/
def decode_base64url (b64url : List Char) : Except String (List Nat) :=
  let r1 := b64url.map (fun c => if c = '-' then '+' else c)
  let r2 := r1.map (fun c => if c = '_' then '/' else c)
  match b64url.length % 4 with
  | 0 => from_base64 r2
  | 2 => from_base64 (r2 ++ ['=', '='])
  | 3 => from_base64 (r2 ++ ['='])
  | _ => .error "Invalid Base64URL string"

/-- Modelled from the spec: the base64url form of a standard base64 string
(substitute the two uri-unsafe characters, drop the padding). The repository
only ships the decoder, so the round-trip claim supplies this direction. -/
def toBase64UrlForm (s : List Char) : List Char :=
  (s.filter (fun c => c ≠ '=')).map
    (fun c => if c = '+' then '-' else if c = '/' then '_' else c)

end B64

/-! ## Option parsing (src/unnamed/part_006, class Option) -/

namespace Opt

/-- `propValue.find('=')`: index of the first `=`, or npos. -/
def findEq (s : List Char) : Option Nat := s.findIdx? (fun x => x == '=')

/-- One iteration of the `Option::Properties` loop body: split at the first
`=`; no `=` means the entry is skipped. -/
def parseProp (s : List Char) : Option (List Char × List Char) :=
  match findEq s with
  | none => none
  | some pos => some (s.take pos, s.drop (pos + 1))

/-- `std::unordered_map::emplace`: inserts only when the key is absent. -/
def emplace (m : List (List Char × List Char)) (k v : List Char) :
    List (List Char × List Char) :=
  if m.any (fun e => e.1 == k) then m else m ++ [(k, v)]

/-- The `Option::Properties` accumulation loop over the raw `-p` arguments. -/
def propGo (m : List (List Char × List Char)) :
    List (List Char) → List (List Char × List Char)
  | [] => m
  | a :: rest =>
    match parseProp a with
    | none => propGo m rest
    | some (k, v) => propGo (emplace m k v) rest

/-- `Option::Properties()`: the parsed property map. -/
def propertiesMap (args : List (List Char)) : List (List Char × List Char) :=
  propGo [] args

/-- `winrt` `IMap::Insert` on `request.Properties()`: replaces the value when
the key exists, appends otherwise. -/
def mapInsert (m : List (List Char × List Char)) (k v : List Char) :
    List (List Char × List Char) :=
  if m.any (fun e => e.1 == k) then
    m.map (fun e => if e.1 == k then (k, v) else e)
  else m ++ [(k, v)]

/-- Folding `Insert` over a list of pairs, as the per-property loop does. -/
def insertAll (m : List (List Char × List Char)) :
    List (List Char × List Char) → List (List Char × List Char)
  | [] => m
  | e :: rest => insertAll (mapInsert m e.1 e.2) rest

/-- The fixed value inserted for `--claimcapability`. -/
def claimsValue : List Char :=
  toL "\x7b\"access_token\":\x7b\"xms_cc\":\x7b\"values\":[\"CP1\"]\x7d\x7d\x7d"

/-- `GetWebTokenRequest` (src/unnamed/part_005): the request property bag,
assembled from the compatibility flags and then the user `-p` properties. -/
def requestProperties (wamCompat claimCapability : Bool)
    (userArgs : List (List Char)) : List (List Char × List Char) :=
  let m0 : List (List Char × List Char) := []
  let m1 := if wamCompat then mapInsert m0 (toL "wam_compat") (toL "2.0") else m0
  let m2 := if claimCapability then mapInsert m1 (toL "claims") claimsValue else m1
  insertAll m2 (propertiesMap userArgs)

/-- Observation helper: look a key up in the modelled property bag. -/
def lookupKey (m : List (List Char × List Char)) (k : List Char) :
    Option (List Char) :=
  (m.find? (fun e => e.1 == k)).map (fun e => e.2)

end Opt

/-! ## Function-local static caching of the Option accessors
(src/unnamed/part_006, `Option::ClientId/Scopes/Properties/TracePath`).
A C++ function-local `static` initialized from a lambda runs the lambda on
the first call only; the cache lives for the whole process and is shared by
every `Option` instance. The cache is modelled as explicit state. -/

namespace Opt

/-- The parsed data a single `Option` instance holds. -/
structure OptionData where
  clientIdSet : Bool
  clientIdVal : List Char
  scopesSet : Bool
  scopesVal : List Char
  propArgs : List (List Char)
  tracePathSet : Bool
  tracePathVal : List Char
deriving DecidableEq

/-- The process-wide function-local statics (outer `none` = not yet initialized). -/
structure StaticCache where
  clientId : Option (Option (List Char))
  scopes : Option (Option (List Char))
  props : Option (List (List Char × List Char))
  tracePath : Option (Option (List Char))
deriving DecidableEq

/-- The state of the statics before any accessor call. -/
def emptyCache : StaticCache :=
  { clientId := none, scopes := none, props := none, tracePath := none }

/-- Body of the `ClientId()` initializer lambda. -/
def clientIdImpl (o : OptionData) : Option (List Char) :=
  if o.clientIdSet then some o.clientIdVal else none

/-- Body of the `Scopes()` initializer lambda. -/
def scopesImpl (o : OptionData) : Option (List Char) :=
  if o.scopesSet then some o.scopesVal else none

/-- Body of the `TracePath()` initializer lambda. -/
def tracePathImpl (o : OptionData) : Option (List Char) :=
  if o.tracePathSet then some o.tracePathVal else none

/-- One call of `Option::ClientId()` on instance `o` with statics `c`. -/
def clientIdCall (o : OptionData) (c : StaticCache) :
    Option (List Char) × StaticCache :=
  match c.clientId with
  | some v => (v, c)
  | none => (clientIdImpl o, { c with clientId := some (clientIdImpl o) })

/-- One call of `Option::Scopes()`. -/
def scopesCall (o : OptionData) (c : StaticCache) :
    Option (List Char) × StaticCache :=
  match c.scopes with
  | some v => (v, c)
  | none => (scopesImpl o, { c with scopes := some (scopesImpl o) })

/-- One call of `Option::Properties()`. -/
def propsCall (o : OptionData) (c : StaticCache) :
    List (List Char × List Char) × StaticCache :=
  match c.props with
  | some v => (v, c)
  | none => (propertiesMap o.propArgs, { c with props := some (propertiesMap o.propArgs) })

/-- One call of `Option::TracePath()`. -/
def tracePathCall (o : OptionData) (c : StaticCache) :
    Option (List Char) × StaticCache :=
  match c.tracePath with
  | some v => (v, c)
  | none => (tracePathImpl o, { c with tracePath := some (tracePathImpl o) })

end Opt

/-! ## Orchestration (src/unnamed/part_005, latest revision: `main`, `MainAsync`) -/

namespace MainProg

/-- `FindAllWebAccountsStatus` of the broker. -/
inductive FindAllStatus
  | success
  | providerError
  | notAllowedByProvider
  | notSupportedByProvider
deriving DecidableEq

/-- `WebTokenRequestStatus` of the broker. -/
inductive TokenStatus
  | success
  | userCancel
  | accountSwitch
  | providerError
  | accountProviderNotAvailable
  | userInteractionRequired
deriving DecidableEq

/-- The externally determined outcomes one run observes: option parsing,
the broker's provider lookup and account enumeration, and the (exit-code
irrelevant) token request outcomes. -/
structure RunEnv where
  parseOk : Bool
  help : Bool
  version : Bool
  providerFound : Bool
  findStatus : FindAllStatus
  showAccountsOnly : Bool
  silentStatus : TokenStatus
  interactiveStatus : TokenStatus
deriving DecidableEq

def EXIT_SUCCESS : Nat := 0
def EXIT_FAILURE : Nat := 1

/-- `MainAsync`: provider-not-found returns `EXIT_FAILURE`; an account
enumeration failure only logs and the run continues; `--showaccountsonly`
returns `EXIT_SUCCESS`. After the two token phases the coroutine flows off
its end without a `co_return`; the operation's result member is
default-initialized, so `GetResults()` yields 0. -/
def mainAsyncExit (e : RunEnv) : Nat :=
  if ¬ e.providerFound then EXIT_FAILURE
  else if e.showAccountsOnly then EXIT_SUCCESS
  else EXIT_SUCCESS

/-- `main`: parse failure returns `EXIT_FAILURE`; help or version return
`EXIT_SUCCESS`; otherwise the exit code is `MainAsync`'s result. -/
def mainExit (e : RunEnv) : Nat :=
  if ¬ e.parseOk then EXIT_FAILURE
  else if e.help then EXIT_SUCCESS
  else if e.version then EXIT_SUCCESS
  else mainAsyncExit e

/-- Outcome of one `GetTokenSilentlyAsync` invocation: a status result, or a
`winrt::hresult_error` exception. -/
inductive SilentOutcome
  | ok
  | providerError
  | thrown
deriving DecidableEq

/-- State of the silent-token `while (not done)` loop: the index `i`, the
`done` flag, and the log of requests issued so far (`none` = the no-account
overload). -/
structure SilentState where
  i : Nat
  done : Bool
  attempts : List (Option Nat)
deriving DecidableEq

/-- One iteration of the silent-token loop (src/unnamed/part_005, lines
1218-1262). On an exception the `catch` only logs: `done = (++i == size)`
sits after the `co_await`, so neither `i` nor `done` is updated. -/
def silentStep (accounts : List Nat) (outcome : Option Nat → SilentOutcome)
    (st : SilentState) : SilentState :=
  if accounts.length = 0 then
    match outcome none with
    | .thrown => { st with attempts := st.attempts ++ [none] }
    | _ => { st with attempts := st.attempts ++ [none], done := true }
  else
    let a := accounts.getD st.i 0
    match outcome (some a) with
    | .thrown => { st with attempts := st.attempts ++ [some a] }
    | _ =>
      { st with
        attempts := st.attempts ++ [some a]
        i := st.i + 1
        done := st.i + 1 == accounts.length }

/-- Run at most `fuel` iterations of the `while (not done)` loop (the fuel
makes the possibly diverging loop a total function). -/
def silentIter (accounts : List Nat) (outcome : Option Nat → SilentOutcome) :
    Nat → SilentState → SilentState
  | 0, st => st
  | fuel + 1, st =>
    if st.done then st
    else silentIter accounts outcome fuel (silentStep accounts outcome st)

/-- The silent-token phase, started at `i = 0`, `done = false`. -/
def silentRun (accounts : List Nat) (outcome : Option Nat → SilentOutcome)
    (fuel : Nat) : SilentState :=
  silentIter accounts outcome fuel { i := 0, done := false, attempts := [] }

/-- The splitting while-loop of `PrintJwt(std::string_view)`: repeatedly find
the next `.`, push the segment before it, and continue after it; the final
find miss pushes the rest. -/
def splitDots (s : List Char) : List (List Char) :=
  match h : s.findIdx? (fun c => c == '.') with
  | none => [s]
  | some i => s.take i :: splitDots (s.drop (i + 1))
termination_by s.length
decreasing_by
  cases s with
  | nil => simp [List.findIdx?] at h
  | cons a t => simp [List.length_drop]; omega

/-- What `PrintJwt` did with the token. -/
inductive JwtResult
  | notJwt
  | decoded (header payload : List Nat)
  | decodeFailed
deriving DecidableEq

/-- `PrintJwt(std::string_view)` (src/unnamed/part_005, lines 1439-1478):
besides the printed outcome, the second component records which segments were
passed to `Util::decode_base64url` (the payload is only reached when the
header decode did not throw). The `catch` turns a decode exception into the
`decodeFailed` outcome instead of propagating it. -/
def printJwt (token : List Char) : JwtResult × List (List Char) :=
  let parts := splitDots token
  if parts.length ≠ 3 then (.notJwt, [])
  else
    let header := parts.getD 0 []
    let payload := parts.getD 1 []
    match B64.decode_base64url header with
    | .error _ => (.decodeFailed, [header])
    | .ok h =>
      match B64.decode_base64url payload with
      | .error _ => (.decodeFailed, [header, payload])
      | .ok p => (.decoded h p, [header, payload])

end MainProg

/-! ## Trace writer (src/GetToken/trace.h, `Diagnostics::detail::CsvTracer`)

The writer is a two-thread system: the owning (main) thread runs `Write`
calls and eventually the destructor, a background task runs the consumer
loop. Each constructor-level primitive of the source (send/try_receive on
the unbounded buffer, SetEvent/WaitForSingleObject on the auto-reset event,
WriteFile, cancel, handle close, future join) is one atomic transition;
a schedule is the list of transitions taken. Member destruction order
matters: `_hFile` is declared after `_writeTask`, so the handle is closed
before the future's destructor joins the background task. -/

namespace Trace

/-- `TraceData`: thread id, creation time (kept as its already formatted
text, the claims treat it as opaque) and message. -/
structure TraceData where
  threadId : Nat
  time : List Char
  message : List Char
deriving DecidableEq

/-- The double-quote character. -/
def dq : Char := Char.ofNat 34

/-- The single-quote character. -/
def sq : Char := Char.ofNat 39

/-- The newline character. -/
def nl : Char := Char.ofNat 10

/-- The in-place normalization loop of `WriteAllMessages`: every
double-quote becomes a single quote. -/
def normalizeMessage (m : List Char) : List Char :=
  m.map (fun c => if c = dq then sq else c)

/-- The `ends_with('\n')` view: drop one trailing newline if present. -/
def stripTrailingNewline (m : List Char) : List Char :=
  if m.getLast? = some nl then m.dropLast else m

/-- The `std::format` line `{time},{tid},"{message}"\n` of `WriteAllMessages`. -/
def formatLine (d : TraceData) : List Char :=
  d.time ++ [','] ++ (Nat.repr d.threadId).toList ++ [','] ++
    [dq] ++ stripTrailingNewline (normalizeMessage d.message) ++ [dq, nl]

/-- The header the constructor writes. -/
def headerLine : List Char := toL "date-time,thread-id,message" ++ [nl]

/-- Program counter of the background consumer task. -/
inductive ConsumerPC
  | parked                 -- in WaitForSingleObject
  | drain                  -- at try_receive inside WriteAllMessages
  | hold (d : TraceData)   -- received d, before its WriteFile
  | checkCancel            -- back in the outer loop, at is_canceled()
  | done                   -- returned
deriving DecidableEq

/-- Program counter of the owning thread within the modelled fragment. -/
inductive MainPC
  | idle                   -- between calls; may Write or start the destructor
  | midWrite               -- after send, before SetEvent
  | dtorSetEvent           -- cancel done, before SetEvent
  | dtorDrain              -- destructor body at try_receive
  | dtorHold (d : TraceData)
  | closeHandles           -- destructor body done; member handles closing
  | joinTask               -- ~future blocks until the consumer returns
  | finished               -- destructor (and so Disable) returned
deriving DecidableEq

/-- The shared state: buffer queue, file contents, open flag, auto-reset
event, cancellation flag and both program counters. -/
structure Sys where
  queue : List TraceData
  file : List (List Char)
  fileOpen : Bool
  eventSet : Bool
  cancelled : Bool
  cpc : ConsumerPC
  mpc : MainPC
deriving DecidableEq

/-- State right after the constructor: header written, consumer parked. -/
def initSys : Sys :=
  { queue := [], file := [headerLine], fileOpen := true, eventSet := false,
    cancelled := false, cpc := .parked, mpc := .idle }

/-- The atomic actions of the two threads. -/
inductive Act
  | sendMsg (d : TraceData)  -- Write: Concurrency::send
  | writeSetEvent            -- Write: SetEvent
  | ctsCancel                -- ~CsvTracer: _cts.cancel()
  | dtorSetEv                -- ~CsvTracer: SetEvent
  | dtorRecv                 -- ~CsvTracer: try_receive in WriteAllMessages
  | dtorWriteFile            -- ~CsvTracer: WriteFile of the held record
  | closeMembers             -- member dtors: CloseHandle (_hBuffReady, _hFile)
  | joinWriteTask            -- ~future of _writeTask: wait for the consumer
  | consWake                 -- consumer: WaitForSingleObject returns
  | consRecv                 -- consumer: try_receive
  | consWriteFile            -- consumer: WriteFile of the held record
  | consCheckCancel          -- consumer: cancelToken.is_canceled()
deriving DecidableEq

/-- One atomic transition; `none` when the action is not enabled in `s`
(not that thread's next instruction, or a wait whose condition fails).
`WriteFile` on the closed handle fails and is ignored by the source, so it
leaves the file unchanged. -/
def step (s : Sys) : Act → Option Sys
  | .sendMsg d =>
    if s.mpc = .idle then some { s with queue := s.queue ++ [d], mpc := .midWrite }
    else none
  | .writeSetEvent =>
    if s.mpc = .midWrite then some { s with eventSet := true, mpc := .idle }
    else none
  | .ctsCancel =>
    if s.mpc = .idle then some { s with cancelled := true, mpc := .dtorSetEvent }
    else none
  | .dtorSetEv =>
    if s.mpc = .dtorSetEvent then some { s with eventSet := true, mpc := .dtorDrain }
    else none
  | .dtorRecv =>
    if s.mpc = .dtorDrain then
      match s.queue with
      | d :: rest => some { s with queue := rest, mpc := .dtorHold d }
      | [] => some { s with mpc := .closeHandles }
    else none
  | .dtorWriteFile =>
    match s.mpc with
    | .dtorHold d =>
      some { s with
        file := if s.fileOpen then s.file ++ [formatLine d] else s.file
        mpc := .dtorDrain }
    | _ => none
  | .closeMembers =>
    if s.mpc = .closeHandles then some { s with fileOpen := false, mpc := .joinTask }
    else none
  | .joinWriteTask =>
    if s.mpc = .joinTask ∧ s.cpc = .done then some { s with mpc := .finished }
    else none
  | .consWake =>
    if s.cpc = .parked ∧ s.eventSet then
      some { s with eventSet := false, cpc := .drain }
    else none
  | .consRecv =>
    if s.cpc = .drain then
      match s.queue with
      | d :: rest => some { s with queue := rest, cpc := .hold d }
      | [] => some { s with cpc := .checkCancel }
    else none
  | .consWriteFile =>
    match s.cpc with
    | .hold d =>
      some { s with
        file := if s.fileOpen then s.file ++ [formatLine d] else s.file
        cpc := .drain }
    | _ => none
  | .consCheckCancel =>
    if s.cpc = .checkCancel then
      some { s with cpc := if s.cancelled then .done else .parked }
    else none

/-- Run a schedule from a state; `none` if some action was not enabled. -/
def run (s : Sys) : List Act → Option Sys
  | [] => some s
  | a :: acts =>
    match step s a with
    | none => none
    | some s2 => run s2 acts

/-! ### The process-wide `Diagnostics::Trace` enable/disable lifecycle
(`_tracer : std::optional<CsvTracer>`), viewed sequentially for the
Enable-twice claim: the second `Enable` throws before `emplace` runs. -/

/-- The sequential view of one enabled writer: its path and file content. -/
structure TracerInst where
  path : List Char
  file : List (List Char)
deriving DecidableEq

/-- The global `detail::_tracer`. -/
structure TraceGlobal where
  tracer : Option TracerInst
deriving DecidableEq

/-- `Trace::Enable`: throws (second component `some` error text) when a
tracer already exists, leaving the global untouched; otherwise emplaces a
fresh tracer whose file holds the header. -/
def enable (path : List Char) (g : TraceGlobal) : TraceGlobal × Option (List Char) :=
  match g.tracer with
  | some _ => (g, some (toL "Trace has been already initialized"))
  | none => ({ tracer := some { path := path, file := [headerLine] } }, none)

/-- `detail::Write` under the sequential view: append the formatted record
to the enabled writer's file, no-op when disabled. -/
def globalWrite (d : TraceData) (g : TraceGlobal) : TraceGlobal :=
  match g.tracer with
  | some t => { tracer := some { t with file := t.file ++ [formatLine d] } }
  | none => g

end Trace

/-! ## Theorems -/

namespace B64

theorem and63_eq_mod (x : Nat) : x &&& 63 = x % 64 := by
  have := Nat.and_pow_two_sub_one_eq_mod x 6
  norm_num at this
  exact this

theorem and255_eq_mod (x : Nat) : x &&& 255 = x % 256 := by
  have := Nat.and_pow_two_sub_one_eq_mod x 8
  norm_num at this
  exact this

theorem b64Find_b64Char : ∀ i < 64, b64Find (b64Char i) = some i := by decide

theorem b64Char_mem_of_lt (i : Nat) (h : i < 64) : b64Char i ∈ base64Chars := by
  have hlen : i < base64Chars.length := by
    have : base64Chars.length = 64 := rfl
    omega
  unfold b64Char
  rw [List.getD_eq_getElem?_getD, List.getElem?_eq_getElem hlen]
  exact List.getElem_mem hlen

theorem b64Find_pad : b64Find '=' = none := by decide

theorem no_pad_in_alphabet : ∀ c ∈ base64Chars, ¬(c = '=') := by decide

theorem url_char_roundtrip : ∀ c ∈ base64Chars,
    (fun c => if c = '_' then '/' else c)
      ((fun c => if c = '-' then '+' else c)
        (if c = '+' then '-' else if c = '/' then '_' else c)) = c := by decide

theorem encodeLoop_chunk (counter off0 b1 b2 b3 : Nat) (rest : List Nat)
    (hc : counter % 3 = 0) :
    encodeLoop counter 0 off0 (b1 :: b2 :: b3 :: rest) =
      b64Char (((b1 <<< 16) >>> 18) &&& 63) ::
      b64Char ((((b1 <<< 16) + (b2 <<< 8)) >>> 12) &&& 63) ::
      b64Char (((((b1 <<< 16) + (b2 <<< 8)) + (b3 <<< 0)) >>> 6) &&& 63) ::
      b64Char ((((b1 <<< 16) + (b2 <<< 8)) + (b3 <<< 0)) &&& 63) ::
      encodeLoop (counter + 3) 0 0 rest := by
  have h1 : (counter + 1) % 3 = 1 := by omega
  have h2 : (counter + 2) % 3 = 2 := by omega
  have h3 : counter + 2 ≠ 3 := by omega
  simp only [encodeLoop, hc, h1, h2]
  norm_num [h3]

theorem decodeLoop_chunk (counter : Nat) (c1 c2 c3 c4 : Char) (e1 e2 e3 e4 : Nat)
    (rest : List Char) (hc : counter % 4 = 0)
    (h1 : b64Find c1 = some e1) (h2 : b64Find c2 = some e2)
    (h3 : b64Find c3 = some e3) (h4 : b64Find c4 = some e4) :
    decodeLoop counter 0 (c1 :: c2 :: c3 :: c4 :: rest) =
      match decodeLoop (counter + 4) 0 rest with
      | .ok ds => .ok
          (((((e1 <<< 18) + (e2 <<< 12)) >>> 16) &&& 255) ::
           (((((e1 <<< 18) + (e2 <<< 12)) + (e3 <<< 6)) >>> 8) &&& 255) ::
           (((((e1 <<< 18) + (e2 <<< 12)) + (e3 <<< 6)) + (e4 <<< 0)) &&& 255) :: ds)
      | .error e => .error e := by
  have hk1 : (counter + 1) % 4 = 1 := by omega
  have hk2 : (counter + 2) % 4 = 2 := by omega
  have hk3 : (counter + 3) % 4 = 3 := by omega
  have hk3' : counter + 3 ≠ 4 := by omega
  simp only [decodeLoop, h1, h2, h3, h4, hc, hk1, hk2, hk3]
  norm_num [hk3']
  cases decodeLoop (counter + 4) 0 rest <;> rfl

theorem encodeLoop_tail1 (counter off0 b1 : Nat) (hc : counter % 3 = 0) :
    encodeLoop counter 0 off0 [b1] =
      [b64Char (((b1 <<< 16) >>> 18) &&& 63),
       b64Char (((b1 <<< 16) >>> 12) &&& 63), '=', '='] := by
  simp only [encodeLoop, hc]
  norm_num

theorem encodeLoop_tail2 (counter off0 b1 b2 : Nat) (hc : counter % 3 = 0) :
    encodeLoop counter 0 off0 [b1, b2] =
      [b64Char (((b1 <<< 16) >>> 18) &&& 63),
       b64Char ((((b1 <<< 16) + (b2 <<< 8)) >>> 12) &&& 63),
       b64Char ((((b1 <<< 16) + (b2 <<< 8)) >>> 6) &&& 63), '='] := by
  have h1 : (counter + 1) % 3 = 1 := by omega
  simp only [encodeLoop, hc, h1]
  norm_num

theorem decodeLoop_tail1 (counter : Nat) (c1 c2 : Char) (e1 e2 : Nat)
    (hc : counter % 4 = 0)
    (h1 : b64Find c1 = some e1) (h2 : b64Find c2 = some e2) :
    decodeLoop counter 0 [c1, c2, '=', '='] =
      .ok [(((e1 <<< 18) + (e2 <<< 12)) >>> 16) &&& 255] := by
  have hk1 : (counter + 1) % 4 = 1 := by omega
  simp only [decodeLoop, h1, h2, b64Find_pad, hc, hk1]
  norm_num

theorem decodeLoop_tail2 (counter : Nat) (c1 c2 c3 : Char) (e1 e2 e3 : Nat)
    (hc : counter % 4 = 0)
    (h1 : b64Find c1 = some e1) (h2 : b64Find c2 = some e2)
    (h3 : b64Find c3 = some e3) :
    decodeLoop counter 0 [c1, c2, c3, '='] =
      .ok [(((e1 <<< 18) + (e2 <<< 12)) >>> 16) &&& 255,
           ((((e1 <<< 18) + (e2 <<< 12)) + (e3 <<< 6)) >>> 8) &&& 255] := by
  have hk1 : (counter + 1) % 4 = 1 := by omega
  have hk2 : (counter + 2) % 4 = 2 := by omega
  simp only [decodeLoop, h1, h2, h3, b64Find_pad, hc, hk1, hk2]
  norm_num

theorem chunk_arith (b1 b2 b3 e1 e2 e3 e4 : Nat)
    (hb1 : b1 < 256) (hb2 : b2 < 256) (hb3 : b3 < 256)
    (he1 : e1 = ((b1 <<< 16) >>> 18) &&& 63)
    (he2 : e2 = (((b1 <<< 16) + (b2 <<< 8)) >>> 12) &&& 63)
    (he3 : e3 = ((((b1 <<< 16) + (b2 <<< 8)) + (b3 <<< 0)) >>> 6) &&& 63)
    (he4 : e4 = (((b1 <<< 16) + (b2 <<< 8)) + (b3 <<< 0)) &&& 63) :
    (((e1 <<< 18) + (e2 <<< 12)) >>> 16) &&& 255 = b1
    ∧ ((((e1 <<< 18) + (e2 <<< 12)) + (e3 <<< 6)) >>> 8) &&& 255 = b2
    ∧ ((((e1 <<< 18) + (e2 <<< 12)) + (e3 <<< 6)) + (e4 <<< 0)) &&& 255 = b3
    ∧ e1 < 64 ∧ e2 < 64 ∧ e3 < 64 ∧ e4 < 64 := by
  subst he1 he2 he3 he4
  simp only [Nat.shiftLeft_eq, Nat.shiftRight_eq_div_pow, and63_eq_mod, and255_eq_mod]
  norm_num
  omega

theorem tail1_arith (b1 e1 e2 : Nat) (hb1 : b1 < 256)
    (he1 : e1 = ((b1 <<< 16) >>> 18) &&& 63)
    (he2 : e2 = ((b1 <<< 16) >>> 12) &&& 63) :
    (((e1 <<< 18) + (e2 <<< 12)) >>> 16) &&& 255 = b1
    ∧ e1 < 64 ∧ e2 < 64 := by
  subst he1 he2
  simp only [Nat.shiftLeft_eq, Nat.shiftRight_eq_div_pow, and63_eq_mod, and255_eq_mod]
  norm_num
  omega

theorem tail2_arith (b1 b2 e1 e2 e3 : Nat) (hb1 : b1 < 256) (hb2 : b2 < 256)
    (he1 : e1 = ((b1 <<< 16) >>> 18) &&& 63)
    (he2 : e2 = (((b1 <<< 16) + (b2 <<< 8)) >>> 12) &&& 63)
    (he3 : e3 = (((b1 <<< 16) + (b2 <<< 8)) >>> 6) &&& 63) :
    (((e1 <<< 18) + (e2 <<< 12)) >>> 16) &&& 255 = b1
    ∧ ((((e1 <<< 18) + (e2 <<< 12)) + (e3 <<< 6)) >>> 8) &&& 255 = b2
    ∧ e1 < 64 ∧ e2 < 64 ∧ e3 < 64 := by
  subst he1 he2 he3
  simp only [Nat.shiftLeft_eq, Nat.shiftRight_eq_div_pow, and63_eq_mod, and255_eq_mod]
  norm_num
  omega

theorem and63_lt (x : Nat) : x &&& 63 < 64 := by
  rw [and63_eq_mod]
  omega

theorem decode_encode_aux (n : Nat) : ∀ (bs : List Nat), bs.length ≤ n →
    (∀ b ∈ bs, b < 256) → ∀ ce cd, ce % 3 = 0 → cd % 4 = 0 →
    decodeLoop cd 0 (encodeLoop ce 0 0 bs) = .ok bs := by
  induction n with
  | zero =>
    intro bs hlen hb ce cd hce hcd
    rcases bs with _ | ⟨b1, bs2⟩
    · simp [encodeLoop, decodeLoop]
    · simp at hlen
  | succ n ihn =>
    intro bs hlen hb ce cd hce hcd
    rcases bs with _ | ⟨b1, bs2⟩
    · simp [encodeLoop, decodeLoop]
    rcases bs2 with _ | ⟨b2, bs3⟩
    · have hb1 : b1 < 256 := hb b1 (by simp)
      obtain ⟨hd1, he1, he2⟩ := tail1_arith b1 _ _ hb1 rfl rfl
      rw [encodeLoop_tail1 ce 0 b1 hce,
        decodeLoop_tail1 cd _ _ _ _ hcd (b64Find_b64Char _ he1) (b64Find_b64Char _ he2),
        hd1]
    rcases bs3 with _ | ⟨b3, rest⟩
    · have hb1 : b1 < 256 := hb b1 (by simp)
      have hb2 : b2 < 256 := hb b2 (by simp)
      obtain ⟨hd1, hd2, he1, he2, he3⟩ := tail2_arith b1 b2 _ _ _ hb1 hb2 rfl rfl rfl
      rw [encodeLoop_tail2 ce 0 b1 b2 hce,
        decodeLoop_tail2 cd _ _ _ _ _ _ hcd (b64Find_b64Char _ he1)
          (b64Find_b64Char _ he2) (b64Find_b64Char _ he3),
        hd1, hd2]
    · have hb1 : b1 < 256 := hb b1 (by simp)
      have hb2 : b2 < 256 := hb b2 (by simp)
      have hb3 : b3 < 256 := hb b3 (by simp)
      obtain ⟨hd1, hd2, hd3, he1, he2, he3, he4⟩ :=
        chunk_arith b1 b2 b3 _ _ _ _ hb1 hb2 hb3 rfl rfl rfl rfl
      have hrest : decodeLoop (cd + 4) 0 (encodeLoop (ce + 3) 0 0 rest) = .ok rest := by
        refine ihn rest (by simp at hlen; omega)
          (fun b hbm => hb b (by simp [hbm])) _ _ (by omega) (by omega)
      rw [encodeLoop_chunk ce 0 b1 b2 b3 rest hce,
        decodeLoop_chunk cd _ _ _ _ _ _ _ _ _ hcd (b64Find_b64Char _ he1)
          (b64Find_b64Char _ he2) (b64Find_b64Char _ he3) (b64Find_b64Char _ he4),
        hrest, hd1, hd2, hd3]

theorem from_base64_to_base64 (bs : List Nat) (hb : ∀ b ∈ bs, b < 256) :
    from_base64 (to_base64 bs) = .ok bs :=
  decode_encode_aux bs.length bs le_rfl hb 0 0 rfl rfl

theorem encode_shape_aux (n : Nat) : ∀ (bs : List Nat), bs.length ≤ n →
    ∀ ce, ce % 3 = 0 →
    ∃ body : List Char,
      encodeLoop ce 0 0 bs = body ++ List.replicate ((3 - bs.length % 3) % 3) '='
      ∧ (∀ c ∈ body, c ∈ base64Chars)
      ∧ body.length % 4 = (if bs.length % 3 = 0 then 0 else bs.length % 3 + 1) := by
  induction n with
  | zero =>
    intro bs hlen ce hce
    rcases bs with _ | ⟨b1, bs2⟩
    · exact ⟨[], by simp [encodeLoop], by simp, by simp⟩
    · simp at hlen
  | succ n ihn =>
    intro bs hlen ce hce
    rcases bs with _ | ⟨b1, bs2⟩
    · exact ⟨[], by simp [encodeLoop], by simp, by simp⟩
    rcases bs2 with _ | ⟨b2, bs3⟩
    · refine ⟨[b64Char (((b1 <<< 16) >>> 18) &&& 63),
               b64Char (((b1 <<< 16) >>> 12) &&& 63)], ?_, ?_, by simp⟩
      · rw [encodeLoop_tail1 ce 0 b1 hce]
        simp [List.replicate]
      · intro c hc
        rcases List.mem_cons.mp hc with h | h
        · exact h ▸ b64Char_mem_of_lt _ (and63_lt _)
        · rcases List.mem_cons.mp h with h2 | h2
          · exact h2 ▸ b64Char_mem_of_lt _ (and63_lt _)
          · simp at h2
    rcases bs3 with _ | ⟨b3, rest⟩
    · refine ⟨[b64Char (((b1 <<< 16) >>> 18) &&& 63),
               b64Char ((((b1 <<< 16) + (b2 <<< 8)) >>> 12) &&& 63),
               b64Char ((((b1 <<< 16) + (b2 <<< 8)) >>> 6) &&& 63)], ?_, ?_, by simp⟩
      · rw [encodeLoop_tail2 ce 0 b1 b2 hce]
        simp [List.replicate]
      · intro c hc
        rcases List.mem_cons.mp hc with h | h
        · exact h ▸ b64Char_mem_of_lt _ (and63_lt _)
        rcases List.mem_cons.mp h with h | h
        · exact h ▸ b64Char_mem_of_lt _ (and63_lt _)
        rcases List.mem_cons.mp h with h | h
        · exact h ▸ b64Char_mem_of_lt _ (and63_lt _)
        · simp at h
    · obtain ⟨body, hrec, hmem, hlen4⟩ :=
        ihn rest (by simp at hlen; omega) (ce + 3) (by omega)
      refine ⟨b64Char (((b1 <<< 16) >>> 18) &&& 63) ::
              b64Char ((((b1 <<< 16) + (b2 <<< 8)) >>> 12) &&& 63) ::
              b64Char (((((b1 <<< 16) + (b2 <<< 8)) + (b3 <<< 0)) >>> 6) &&& 63) ::
              b64Char ((((b1 <<< 16) + (b2 <<< 8)) + (b3 <<< 0)) &&& 63) :: body,
              ?_, ?_, ?_⟩
      · rw [encodeLoop_chunk ce 0 b1 b2 b3 rest hce, hrec]
        have hmod : (b1 :: b2 :: b3 :: rest).length % 3 = rest.length % 3 := by
          simp
          omega
        rw [hmod]
        simp
      · intro c hc
        rcases List.mem_cons.mp hc with h | h
        · exact h ▸ b64Char_mem_of_lt _ (and63_lt _)
        rcases List.mem_cons.mp h with h | h
        · exact h ▸ b64Char_mem_of_lt _ (and63_lt _)
        rcases List.mem_cons.mp h with h | h
        · exact h ▸ b64Char_mem_of_lt _ (and63_lt _)
        rcases List.mem_cons.mp h with h | h
        · exact h ▸ b64Char_mem_of_lt _ (and63_lt _)
        · exact hmem c h
      · have hmod : (b1 :: b2 :: b3 :: rest).length % 3 = rest.length % 3 := by
          simp
          omega
        rw [hmod]
        simp only [List.length_cons]
        omega

theorem decode_base64url_encode (bs : List Nat) (hb : ∀ b ∈ bs, b < 256) :
    decode_base64url (toBase64UrlForm (to_base64 bs)) = .ok bs := by
  obtain ⟨body, henc, hmem, hlen4⟩ := encode_shape_aux bs.length bs le_rfl 0 rfl
  have henc' : to_base64 bs
      = body ++ List.replicate ((3 - bs.length % 3) % 3) '=' := henc
  have hurl : toBase64UrlForm (to_base64 bs)
      = body.map (fun c => if c = '+' then '-' else if c = '/' then '_' else c) := by
    rw [henc']
    unfold toBase64UrlForm
    rw [List.filter_append]
    have h1 : body.filter (fun c => decide (c ≠ '=')) = body := by
      rw [List.filter_eq_self]
      intro c hc
      simpa using no_pad_in_alphabet c (hmem c hc)
    have h2 : (List.replicate ((3 - bs.length % 3) % 3) '=').filter
        (fun c => decide (c ≠ '=')) = [] := by
      rw [List.filter_eq_nil_iff]
      intro c hc
      rw [List.eq_of_mem_replicate hc]
      simp
    rw [h1, h2, List.append_nil]
  have hrestore :
      ((toBase64UrlForm (to_base64 bs)).map (fun c => if c = '-' then '+' else c)).map
        (fun c => if c = '_' then '/' else c) = body := by
    rw [hurl, List.map_map, List.map_map]
    refine (List.map_congr_left fun c hc => ?_).trans (List.map_id body)
    have h := url_char_roundtrip c (hmem c hc)
    simpa [Function.comp] using h
  have hlenurl : (toBase64UrlForm (to_base64 bs)).length = body.length := by
    rw [hurl, List.length_map]
  have hsplit : bs.length % 3 = 0 ∨ bs.length % 3 = 1 ∨ bs.length % 3 = 2 := by omega
  unfold decode_base64url
  rcases hsplit with h3 | h3 | h3
  · have hv : (toBase64UrlForm (to_base64 bs)).length % 4 = 0 := by
      rw [hlenurl, hlen4, h3]
      simp
    rw [hv]
    show decodeLoop 0 0
        (((toBase64UrlForm (to_base64 bs)).map (fun c => if c = '-' then '+' else c)).map
          (fun c => if c = '_' then '/' else c)) = Except.ok bs
    have hbody : body = to_base64 bs := by
      rw [henc', h3]
      simp
    rw [hrestore, hbody]
    exact from_base64_to_base64 bs hb
  · have hv : (toBase64UrlForm (to_base64 bs)).length % 4 = 2 := by
      rw [hlenurl, hlen4, h3]
      simp
    rw [hv]
    show decodeLoop 0 0
        ((((toBase64UrlForm (to_base64 bs)).map (fun c => if c = '-' then '+' else c)).map
          (fun c => if c = '_' then '/' else c)) ++ ['=', '=']) = Except.ok bs
    have hbody : body ++ ['=', '='] = to_base64 bs := by
      rw [henc', h3]
      simp [List.replicate]
    rw [hrestore, hbody]
    exact from_base64_to_base64 bs hb
  · have hv : (toBase64UrlForm (to_base64 bs)).length % 4 = 3 := by
      rw [hlenurl, hlen4, h3]
      simp
    rw [hv]
    show decodeLoop 0 0
        ((((toBase64UrlForm (to_base64 bs)).map (fun c => if c = '-' then '+' else c)).map
          (fun c => if c = '_' then '/' else c)) ++ ['=']) = Except.ok bs
    have hbody : body ++ ['='] = to_base64 bs := by
      rw [henc', h3]
      simp [List.replicate]
    rw [hrestore, hbody]
    exact from_base64_to_base64 bs hb

theorem decode_base64url_rem1 (s : List Char) (h : s.length % 4 = 1) :
    decode_base64url s = .error "Invalid Base64URL string" := by
  unfold decode_base64url
  rw [h]

/-- C5: decoding the base64url form of the base64 encoding of any byte
sequence returns exactly that sequence (the decoder substitutes the url
characters back and restores padding from the length mod 4), and decoding
any string whose length mod 4 is 1 raises the padding error. -/
theorem c5_base64url_roundtrip :
    (∀ bs : List Nat, (∀ b ∈ bs, b < 256) →
      decode_base64url (toBase64UrlForm (to_base64 bs)) = .ok bs)
    ∧ (∀ s : List Char, s.length % 4 = 1 →
        decode_base64url s = .error "Invalid Base64URL string") :=
  ⟨decode_base64url_encode, decode_base64url_rem1⟩

/-- Witness for C5 at the bytes `[77, 255, 0, 1]` and the five-character
string `abcde`. -/
theorem c5_base64url_roundtrip_witness :
    decode_base64url (toBase64UrlForm (to_base64 [77, 255, 0, 1])) = .ok [77, 255, 0, 1]
    ∧ decode_base64url (toL "abcde") = .error "Invalid Base64URL string" :=
  ⟨c5_base64url_roundtrip.1 [77, 255, 0, 1] (by decide),
   c5_base64url_roundtrip.2 (toL "abcde") (by decide)⟩

end B64


namespace Opt

theorem findEq_append (k v : List Char) (h : '=' ∉ k) :
    findEq (k ++ '=' :: v) = some k.length := by
  induction k with
  | nil => simp [findEq]
  | cons a t ih =>
    have ha : ¬(a == '=') := by
      simp only [beq_iff_eq]
      exact fun hc => h (hc ▸ List.mem_cons_self a t)
    have ht : '=' ∉ t := fun hc => h (List.mem_cons_of_mem a hc)
    simp only [findEq, List.cons_append, List.findIdx?_cons, ha, if_false,
      List.findIdx?_start_succ]
    have := ih ht
    simp only [findEq] at this
    simp [this]

theorem findEq_eq_none (s : List Char) (h : '=' ∉ s) : findEq s = none := by
  simp only [findEq, List.findIdx?_eq_none_iff]
  intro c hc
  simp only [beq_eq_false_iff_ne, ne_eq]
  exact fun hceq => h (hceq ▸ hc)

theorem parseProp_split (k v : List Char) (h : '=' ∉ k) :
    parseProp (k ++ '=' :: v) = some (k, v) := by
  simp only [parseProp, findEq_append k v h]
  congr 1
  rw [Prod.mk.injEq]
  refine ⟨?_, ?_⟩
  · simp [List.take_left k ('=' :: v)]
  · rw [show k ++ '=' :: v = (k ++ ['=']) ++ v by simp]
    exact List.drop_left' (by simp)

/-- C7: every `-p` argument splits only at its first `=` (so `a=b=c` gives
key `a` and value `b=c`), and an argument with no `=` is silently skipped by
the `Option::Properties` loop rather than reported. -/
theorem c7_property_first_eq_split :
    (∀ k v : List Char, '=' ∉ k → parseProp (k ++ '=' :: v) = some (k, v))
    ∧ parseProp (toL "a=b=c") = some (toL "a", toL "b=c")
    ∧ (∀ s : List Char, '=' ∉ s → parseProp s = none)
    ∧ (∀ (m : List (List Char × List Char)) (s : List Char) (rest : List (List Char)),
        '=' ∉ s → propGo m (s :: rest) = propGo m rest) := by
  refine ⟨parseProp_split, by decide, ?_, ?_⟩
  · intro s h
    simp [parseProp, findEq_eq_none s h]
  · intro m s rest h
    simp [propGo, parseProp, findEq_eq_none s h]

/-- Witness for C7 at concrete inputs. -/
theorem c7_property_first_eq_split_witness :
    parseProp (toL "key" ++ '=' :: toL "val") = some (toL "key", toL "val")
    ∧ parseProp (toL "novalue") = none :=
  ⟨c7_property_first_eq_split.1 (toL "key") (toL "val") (by decide),
   c7_property_first_eq_split.2.2.1 (toL "novalue") (by decide)⟩

theorem lookupKey_append (m1 m2 : List (List Char × List Char)) (k : List Char) :
    lookupKey (m1 ++ m2) k = (lookupKey m1 k).or (lookupKey m2 k) := by
  simp [lookupKey, List.find?_append, Option.map_or']

theorem lookupKey_emplace (m : List (List Char × List Char)) (ka va k : List Char) :
    lookupKey (emplace m ka va) k =
      (lookupKey m k).or (if ka == k then some va else none) := by
  unfold emplace
  by_cases h : m.any (fun e => e.1 == ka)
  · simp only [h, if_true]
    by_cases hk : ka == k
    · have hkk : ka = k := by simpa using hk
      have hs : ∃ e, e ∈ m ∧ (e.1 == k) := by
        simp only [List.any_eq_true] at h
        obtain ⟨e, he, hek⟩ := h
        exact ⟨e, he, by simp_all⟩
      have := List.find?_isSome.mpr hs
      obtain ⟨e, he⟩ := Option.isSome_iff_exists.mp this
      simp [lookupKey, he, hk]
    · simp [hk, Option.or_none]
  · simp only [h, Bool.false_eq_true, if_false]
    rw [lookupKey_append]
    congr 1
    by_cases hk : ka == k
    · simp [lookupKey, List.find?_cons, hk]
    · simp [lookupKey, List.find?_cons, hk]

theorem propGo_lookup (args : List (List Char)) :
    ∀ (m : List (List Char × List Char)) (k : List Char),
      lookupKey (propGo m args) k =
        (lookupKey m k).or
          (((args.filterMap parseProp).find? (fun e => e.1 == k)).map (fun e => e.2)) := by
  induction args with
  | nil => intro m k; simp [propGo]
  | cons a rest ih =>
    intro m k
    cases hp : parseProp a with
    | none => simp [propGo, hp, List.filterMap_cons, ih]
    | some kv =>
      obtain ⟨ka, va⟩ := kv
      simp only [propGo, hp, List.filterMap_cons]
      rw [ih, lookupKey_emplace, Option.or_assoc]
      congr 1
      by_cases hk : ((ka, va) : List Char × List Char).1 == k
      · simp only [List.find?_cons, hk, if_true, Option.map_some', Option.or_some]
      · have hk2 : (ka == k) = false := by simpa using hk
        simp only [List.find?_cons, hk2, Bool.false_eq_true, if_false, Option.none_or]

theorem find?_map_replace_hit (ka va : List Char) :
    ∀ (m : List (List Char × List Char)), m.any (fun e => e.1 == ka) →
      (m.map (fun e => if e.1 == ka then (ka, va) else e)).find?
        (fun e => e.1 == ka) = some (ka, va) := by
  intro m
  induction m with
  | nil => simp
  | cons e t ih =>
    intro h
    cases he : (e.1 == ka) with
    | true =>
      have hstep : (e :: t).map (fun e => if e.1 == ka then (ka, va) else e)
          = (ka, va) :: t.map (fun e => if e.1 == ka then (ka, va) else e) := by
        simp only [List.map_cons]
        rw [if_pos he]
      rw [hstep, List.find?_cons]
      simp
    | false =>
      have hstep : (e :: t).map (fun e => if e.1 == ka then (ka, va) else e)
          = e :: t.map (fun e => if e.1 == ka then (ka, va) else e) := by
        simp only [List.map_cons]
        rw [if_neg (by simp [he])]
      rw [hstep, List.find?_cons, he]
      exact ih (by simpa [List.any_cons, he] using h)

theorem find?_map_replace_miss (ka va k : List Char) (hk : ¬(ka == k) = true) :
    ∀ (m : List (List Char × List Char)),
      (m.map (fun e => if e.1 == ka then (ka, va) else e)).find?
        (fun e => e.1 == k) = m.find? (fun e => e.1 == k) := by
  intro m
  have hk2 : (ka == k) = false := by simpa using hk
  induction m with
  | nil => simp
  | cons e t ih =>
    cases he : (e.1 == ka) with
    | true =>
      have heka : e.1 = ka := by simpa using he
      have h2 : (e.1 == k) = false := by rw [heka]; exact hk2
      have hstep : (e :: t).map (fun e => if e.1 == ka then (ka, va) else e)
          = (ka, va) :: t.map (fun e => if e.1 == ka then (ka, va) else e) := by
        simp only [List.map_cons]
        rw [if_pos he]
      rw [hstep, List.find?_cons, List.find?_cons, h2]
      have h1 : (((ka, va) : List Char × List Char).1 == k) = false := hk2
      rw [h1, ih]
    | false =>
      have hstep : (e :: t).map (fun e => if e.1 == ka then (ka, va) else e)
          = e :: t.map (fun e => if e.1 == ka then (ka, va) else e) := by
        simp only [List.map_cons]
        rw [if_neg (by simp [he])]
      rw [hstep, List.find?_cons, List.find?_cons]
      cases hek : (e.1 == k) with
      | true => rfl
      | false => rw [ih]

theorem lookupKey_mapInsert (m : List (List Char × List Char)) (ka va k : List Char) :
    lookupKey (mapInsert m ka va) k =
      if ka == k then some va else lookupKey m k := by
  unfold mapInsert
  by_cases h : m.any (fun e => e.1 == ka)
  · simp only [h, if_true]
    by_cases hk : (ka == k) = true
    · have hkk : ka = k := by simpa using hk
      subst hkk
      unfold lookupKey
      rw [find?_map_replace_hit ka va m h]
      simp
    · have hk2 : (ka == k) = false := by simpa using hk
      unfold lookupKey
      rw [find?_map_replace_miss ka va k hk m]
      simp [hk2]
  · simp only [h, Bool.false_eq_true, if_false]
    rw [lookupKey_append]
    by_cases hk : (ka == k) = true
    · have hs : lookupKey [(ka, va)] k = some va := by
        unfold lookupKey
        rw [List.find?_cons, hk]
        rfl
      have hn : lookupKey m k = none := by
        simp only [lookupKey, Option.map_eq_none', List.find?_eq_none]
        intro e he
        have hkk : ka = k := by simpa using hk
        intro hek
        exact absurd (List.any_eq_true.mpr ⟨e, he, by simp_all⟩) h
      simp [hs, hn, hk]
    · have hk2 : (ka == k) = false := by simpa using hk
      have hz : lookupKey [(ka, va)] k = none := by
        unfold lookupKey
        rw [List.find?_cons, hk2]
        rfl
      simp [hz, hk2]

theorem insertAll_no_key (k : List Char) :
    ∀ (ps m : List (List Char × List Char)), (∀ e ∈ ps, ¬(e.1 == k) = true) →
      lookupKey (insertAll m ps) k = lookupKey m k := by
  intro ps
  induction ps with
  | nil => intro m _; rfl
  | cons e t ih =>
    intro m h
    simp only [insertAll]
    rw [ih (mapInsert m e.1 e.2) (fun x hx => h x (List.mem_cons_of_mem e hx)),
      lookupKey_mapInsert, if_neg (h e (List.mem_cons_self e t))]

theorem insertAll_user_wins (k v : List Char) :
    ∀ (ps : List (List Char × List Char)), ps.Pairwise (fun a b => a.1 ≠ b.1) →
      lookupKey ps k = some v →
      ∀ m, lookupKey (insertAll m ps) k = some v := by
  intro ps
  induction ps with
  | nil => intro _ h; simp [lookupKey] at h
  | cons e t ih =>
    intro hpw hl m
    have hpw2 := (List.pairwise_cons.mp hpw).2
    have hhead := (List.pairwise_cons.mp hpw).1
    cases he : (e.1 == k) with
    | true =>
      have hek : e.1 = k := by simpa using he
      have hv : e.2 = v := by
        unfold lookupKey at hl
        rw [List.find?_cons, he] at hl
        simpa using hl
      have hnot : ∀ x ∈ t, ¬(x.1 == k) = true := by
        intro x hx hxk
        have hx1 : x.1 = k := by simpa using hxk
        exact (hhead x hx) (by rw [hek, hx1])
      simp only [insertAll]
      rw [insertAll_no_key k t (mapInsert m e.1 e.2) hnot, lookupKey_mapInsert,
        if_pos he, hv]
    | false =>
      have hl2 : lookupKey t k = some v := by
        unfold lookupKey at hl ⊢
        rw [List.find?_cons, he] at hl
        exact hl
      simp only [insertAll]
      exact ih hpw2 hl2 (mapInsert m e.1 e.2)

theorem propGo_pairwise (args : List (List Char)) :
    ∀ m : List (List Char × List Char), m.Pairwise (fun a b => a.1 ≠ b.1) →
      (propGo m args).Pairwise (fun a b => a.1 ≠ b.1) := by
  induction args with
  | nil => intro m h; exact h
  | cons a rest ih =>
    intro m h
    cases hp : parseProp a with
    | none => simpa [propGo, hp] using ih m h
    | some kv =>
      obtain ⟨ka, va⟩ := kv
      simp only [propGo, hp]
      refine ih _ ?_
      unfold emplace
      by_cases hany : m.any (fun e => e.1 == ka)
      · simpa [hany] using h
      · simp only [hany, Bool.false_eq_true, if_false]
        rw [List.pairwise_append]
        refine ⟨h, by simp, ?_⟩
        intro x hx y hy
        simp only [List.mem_singleton] at hy
        subst hy
        simp only [ne_eq]
        intro hxk
        exact absurd (List.any_eq_true.mpr ⟨x, hx, by simp [hxk]⟩) hany

/-- C2 counterexample: supplying `-p a=1 -p a=2` does not send both pairs;
`std::unordered_map::emplace` drops the second occurrence, so the outbound
property bag holds the single entry `a=1`. -/
theorem c2_counterexample :
    requestProperties false false [toL "a=1", toL "a=2"] = [(toL "a", toL "1")]
    ∧ lookupKey (requestProperties false false [toL "a=1", toL "a=2"]) (toL "a")
        = some (toL "1") := by
  exact ⟨by decide, by decide⟩

/-- C2 amended: when the same `-p` key appears more than once, only the first
occurrence survives (`emplace` does not overwrite), so exactly one pair per
key is sent; a collision between a flag-derived property and a user-supplied
property is resolved by the property bag's `Insert` (replace) semantics, so
the later user-supplied insertion wins. -/
theorem c2_amended_first_parse_wins_user_overrides_flags :
    (∀ (args : List (List Char)) (k : List Char),
      lookupKey (propertiesMap args) k =
        (((args.filterMap parseProp).find? (fun e => e.1 == k)).map (fun e => e.2)))
    ∧ (∀ (wamCompat claimCapability : Bool) (args : List (List Char)) (k v : List Char),
        lookupKey (propertiesMap args) k = some v →
        lookupKey (requestProperties wamCompat claimCapability args) k = some v) := by
  constructor
  · intro args k
    have := propGo_lookup args [] k
    simpa [propertiesMap, lookupKey] using this
  · intro wc cc args k v h
    unfold requestProperties
    exact insertAll_user_wins k v (propertiesMap args)
      (propGo_pairwise args [] (by simp)) h _

/-- Witness for the amended C2 at concrete inputs. -/
theorem c2_amended_witness :
    lookupKey (requestProperties true false [toL "wam_compat=9"]) (toL "wam_compat")
      = some (toL "9") :=
  c2_amended_first_parse_wins_user_overrides_flags.2 true false
    [toL "wam_compat=9"] (toL "wam_compat") (toL "9") (by decide)

end Opt

namespace Opt

/-- C10: each of the four cached accessors computes its value at most once
per process: a call against an already filled function-local static returns
the cached value and leaves it untouched, whatever `Option` instance (or
re-`Parse`d data) `o` carries, and the first call against the empty cache
fills it from the calling instance. -/
theorem c10_accessor_static_caching :
    (∀ (o₁ o₂ : OptionData) (c : StaticCache),
      clientIdCall o₂ (clientIdCall o₁ c).2 = ((clientIdCall o₁ c).1, (clientIdCall o₁ c).2)
      ∧ scopesCall o₂ (scopesCall o₁ c).2 = ((scopesCall o₁ c).1, (scopesCall o₁ c).2)
      ∧ propsCall o₂ (propsCall o₁ c).2 = ((propsCall o₁ c).1, (propsCall o₁ c).2)
      ∧ tracePathCall o₂ (tracePathCall o₁ c).2
          = ((tracePathCall o₁ c).1, (tracePathCall o₁ c).2))
    ∧ (∀ o : OptionData,
      (clientIdCall o emptyCache).1 = clientIdImpl o
      ∧ (scopesCall o emptyCache).1 = scopesImpl o
      ∧ (propsCall o emptyCache).1 = propertiesMap o.propArgs
      ∧ (tracePathCall o emptyCache).1 = tracePathImpl o) := by
  constructor
  · intro o1 o2 c
    refine ⟨?_, ?_, ?_, ?_⟩
    · cases h : c.clientId <;> simp [clientIdCall, h]
    · cases h : c.scopes <;> simp [scopesCall, h]
    · cases h : c.props <;> simp [propsCall, h]
    · cases h : c.tracePath <;> simp [tracePathCall, h]
  · intro o
    exact ⟨rfl, rfl, rfl, rfl⟩

end Opt

namespace MainProg

/-- C3 counterexample: a run whose option parsing succeeded, whose provider
was found, whose account enumeration failed with a provider error, and which
was started with `--showaccountsonly`, exits with code 0 — not the code 1
the claim demands for every account-enumeration failure. In the cited
revision the enumeration-failure branch only logs and the run continues. -/
theorem c3_counterexample :
    mainExit
      { parseOk := true, help := false, version := false, providerFound := true,
        findStatus := .providerError, showAccountsOnly := true,
        silentStatus := .providerError, interactiveStatus := .providerError }
      = EXIT_SUCCESS
    ∧ FindAllStatus.providerError ≠ FindAllStatus.success := by
  exact ⟨rfl, by decide⟩

/-- C3 amended: the exit code is 1 exactly when option parsing fails, or the
run proceeds past help/version and the account provider is not found; the
account-enumeration status and the silent/interactive token outcomes never
influence the exit code. -/
theorem c3_amended_exit_codes :
    (∀ e : RunEnv,
      (mainExit e = EXIT_FAILURE ↔
        (e.parseOk = false
          ∨ (e.parseOk = true ∧ e.help = false ∧ e.version = false
              ∧ e.providerFound = false))))
    ∧ (∀ (e : RunEnv) (fs : FindAllStatus) (ss is : TokenStatus),
        mainExit { e with findStatus := fs, silentStatus := ss,
                          interactiveStatus := is } = mainExit e) := by
  constructor
  · intro e
    obtain ⟨p, h, v, pf, fs, sa, ss, is⟩ := e
    cases p <;> cases h <;> cases v <;> cases pf <;> cases sa <;>
      simp [mainExit, mainAsyncExit, EXIT_SUCCESS, EXIT_FAILURE]
  · intro e fs ss is
    obtain ⟨p, h, v, pf, fs0, sa, ss0, is0⟩ := e
    rfl

/-- Witness for the amended C3: a run that fails only at option parsing
exits 1. -/
theorem c3_amended_exit_codes_witness :
    mainExit
      { parseOk := false, help := false, version := false, providerFound := true,
        findStatus := .success, showAccountsOnly := false,
        silentStatus := .success, interactiveStatus := .success }
      = EXIT_FAILURE :=
  (c3_amended_exit_codes.1
    { parseOk := false, help := false, version := false, providerFound := true,
      findStatus := .success, showAccountsOnly := false,
      silentStatus := .success, interactiveStatus := .success }).mpr
    (Or.inl rfl)

/-- C4 (the code at the failing input): with the two collected accounts
`[10, 20]` and a silent request that throws a `winrt::hresult_error` on every
attempt, five loop iterations issue five requests for account 10, never mark
the loop done, and never attempt account 20: the increment of `i` sits after
the `co_await`, so a throw repeats the same account instead of advancing. -/
theorem c4_silent_loop_retries_on_exception :
    silentRun [10, 20] (fun _ => .thrown) 5
      = { i := 0, done := false,
          attempts := [some 10, some 10, some 10, some 10, some 10] }
    ∧ some 20 ∉ (silentRun [10, 20] (fun _ => .thrown) 5).attempts
    ∧ (silentRun [10, 20] (fun _ => .ok) 5).attempts = [some 10, some 20] := by
  refine ⟨rfl, by decide, rfl⟩

end MainProg

namespace MainProg

theorem findIdx_dot_spec :
    ∀ (s : List Char) (i : Nat), s.findIdx? (fun c => c == '.') = some i →
      ('.' ∉ s.take i) ∧ i < s.length ∧ s.getD i ' ' = '.' := by
  intro s
  induction s with
  | nil => intro i h; simp at h
  | cons a t ih =>
    intro i h
    rw [List.findIdx?_cons] at h
    by_cases ha : (a == '.') = true
    · rw [if_pos ha] at h
      have h0 : i = 0 := by
        injection h with h1
        omega
      subst h0
      exact ⟨by simp, by simp, by simpa using ha⟩
    · rw [if_neg ha, List.findIdx?_start_succ] at h
      obtain ⟨j, hj, hji⟩ : ∃ j, t.findIdx? (fun c => c == '.') = some j ∧ j + 1 = i := by
        cases hft : t.findIdx? (fun c => c == '.') with
        | none => rw [hft] at h; simp at h
        | some j =>
          rw [hft] at h
          simp only [Option.map_some', Option.some.injEq] at h
          exact ⟨j, rfl, by omega⟩
      subst hji
      obtain ⟨htake, hlen, hget⟩ := ih j hj
      have hane : a ≠ '.' := by simpa using ha
      refine ⟨?_, by simp; omega, by simpa using hget⟩
      intro hmem
      rcases List.mem_cons.mp (by simpa [List.take_cons] using hmem) with hc | hc
      · exact hane hc.symm
      · exact htake hc

theorem splitDots_length (s : List Char) :
    (splitDots s).length = s.count '.' + 1 := by
  induction s using splitDots.induct with
  | case1 s h =>
    have hnot : '.' ∉ s := by
      intro hmem
      have := List.findIdx?_eq_none_iff.mp h '.' hmem
      simp at this
    rw [splitDots, h]
    simp [List.count_eq_zero.mpr hnot]
  | case2 s i h ih =>
    obtain ⟨htake, hlen, hget⟩ := findIdx_dot_spec s i h
    have hsi : s[i] = '.' := by
      have := hget
      rw [List.getD_eq_getElem?_getD, List.getElem?_eq_getElem hlen] at this
      simpa using this
    have hcount : s.count '.' = (s.drop (i + 1)).count '.' + 1 := by
      conv_lhs => rw [← List.take_append_drop i s]
      rw [List.count_append, List.drop_eq_getElem_cons hlen, hsi,
        List.count_cons_self, List.count_eq_zero.mpr htake]
      omega
    rw [splitDots, h]
    simp only [List.length_cons, ih, hcount]

/-- C8: `PrintJwt` splits the token on `.`; with exactly two dots it gets
three segments and passes header and payload to the base64url decoder, with
any other dot count it reports "not a JWT" and attempts no decode, and a
decode error is caught (the function returns the failure outcome instead of
propagating the error). -/
theorem c8_jwt_detection (token : List Char) :
    ((printJwt token).1 = .notJwt ↔ token.count '.' ≠ 2)
    ∧ ((printJwt token).2 = [] ↔ token.count '.' ≠ 2)
    ∧ (token.count '.' = 2 →
        (printJwt token).2.getD 0 [] = (splitDots token).getD 0 [])
    ∧ (∀ h p, (printJwt token).1 = .decoded h p →
        B64.decode_base64url ((splitDots token).getD 0 []) = .ok h
        ∧ B64.decode_base64url ((splitDots token).getD 1 []) = .ok p)
    ∧ ((printJwt token).1 = .decodeFailed →
        (∃ e, B64.decode_base64url ((splitDots token).getD 0 []) = .error e)
        ∨ (∃ e, B64.decode_base64url ((splitDots token).getD 1 []) = .error e)) := by
  have hls := splitDots_length token
  by_cases h3 : (splitDots token).length ≠ 3
  · have hpj : printJwt token = (.notJwt, []) := by
      unfold printJwt
      rw [if_pos h3]
    have hc2 : token.count '.' ≠ 2 := by omega
    rw [hpj]
    refine ⟨⟨fun _ => hc2, fun _ => rfl⟩, ⟨fun _ => hc2, fun _ => rfl⟩,
      fun h => absurd h hc2, ?_, ?_⟩
    · intro h p hcon
      exact absurd hcon (by simp)
    · intro hcon
      exact absurd hcon (by simp)
  · have hc2 : token.count '.' = 2 := by omega
    cases hH : B64.decode_base64url ((splitDots token).getD 0 []) with
    | error e =>
      have hpj : printJwt token = (.decodeFailed, [(splitDots token).getD 0 []]) := by
        unfold printJwt
        rw [if_neg h3]
        simp only [hH]
      rw [hpj]
      refine ⟨⟨fun hcon => absurd hcon (by simp), fun hcon => absurd hc2 hcon⟩,
        ⟨fun hcon => absurd hcon (by simp), fun hcon => absurd hc2 hcon⟩,
        fun _ => rfl, ?_, fun _ => Or.inl ⟨e, rfl⟩⟩
      intro h p hcon
      exact absurd hcon (by simp)
    | ok hdr =>
      cases hP : B64.decode_base64url ((splitDots token).getD 1 []) with
      | error e =>
        have hpj : printJwt token
            = (.decodeFailed, [(splitDots token).getD 0 [], (splitDots token).getD 1 []]) := by
          unfold printJwt
          rw [if_neg h3]
          simp only [hH, hP]
        rw [hpj]
        refine ⟨⟨fun hcon => absurd hcon (by simp), fun hcon => absurd hc2 hcon⟩,
          ⟨fun hcon => absurd hcon (by simp), fun hcon => absurd hc2 hcon⟩,
          fun _ => rfl, ?_, fun _ => Or.inr ⟨e, rfl⟩⟩
        intro h p hcon
        exact absurd hcon (by simp)
      | ok pl =>
        have hpj : printJwt token
            = (.decoded hdr pl, [(splitDots token).getD 0 [], (splitDots token).getD 1 []]) := by
          unfold printJwt
          rw [if_neg h3]
          simp only [hH, hP]
        rw [hpj]
        refine ⟨⟨fun hcon => absurd hcon (by simp), fun hcon => absurd hc2 hcon⟩,
          ⟨fun hcon => absurd hcon (by simp), fun hcon => absurd hc2 hcon⟩,
          fun _ => rfl, ?_, fun hcon => absurd hcon (by simp)⟩
        intro h p hcon
        have h1 : hdr = h := by
          have := congrArg (fun r => match r with | JwtResult.decoded x _ => x | _ => []) hcon
          simpa using this
        have h2 : pl = p := by
          have := congrArg (fun r => match r with | JwtResult.decoded _ y => y | _ => []) hcon
          simpa using this
        exact ⟨h1 ▸ rfl, h2 ▸ rfl⟩

/-- Witness for C8: the token `QQ.QQ.x` has two dots; the theorem yields the
decoded header and payload bytes. -/
theorem c8_jwt_detection_witness :
    B64.decode_base64url ((splitDots (toL "QQ.QQ.x")).getD 0 []) = .ok [65]
    ∧ B64.decode_base64url ((splitDots (toL "QQ.QQ.x")).getD 1 []) = .ok [65] :=
  (c8_jwt_detection (toL "QQ.QQ.x")).2.2.2.1 [65] [65] (by
    have hs : splitDots (toL "QQ.QQ.x") = [toL "QQ", toL "QQ", toL "x"] := by
      simp [splitDots, toL]
    unfold printJwt
    rw [hs]
    decide)

end MainProg

namespace Trace

theorem dq_not_in_normalized (m : List Char) :
    dq ∉ stripTrailingNewline (normalizeMessage m) := by
  have h1 : dq ∉ normalizeMessage m := by
    intro hmem
    simp only [normalizeMessage, List.mem_map] at hmem
    obtain ⟨x, _, hx⟩ := hmem
    by_cases hxd : x = dq
    · rw [if_pos hxd] at hx
      exact absurd hx (by decide)
    · rw [if_neg hxd] at hx
      exact hxd hx
  intro hmem
  apply h1
  unfold stripTrailingNewline at hmem
  by_cases hlast : (normalizeMessage m).getLast? = some nl
  · rw [if_pos hlast] at hmem
    exact List.dropLast_subset _ hmem
  · rw [if_neg hlast] at hmem
    exact hmem

/-- C1 (the code at the failing input): one record is accepted by `Write`
(send completes, the event is set) before the destructor runs, but the
consumer is preempted between its `try_receive` and its `WriteFile`.  The
destructor's final drain then finds the buffer empty, the member destructors
close the file handle before `_writeTask`'s future joins, and the consumer's
late `WriteFile` fails against the closed handle: `Disable` returns with the
record missing from the file — the file holds only the header. -/
theorem c1_accepted_record_lost_under_race :
    run initSys
      [.sendMsg ⟨1, toL "ts", toL "late message"⟩, .writeSetEvent, .consWake, .consRecv,
       .ctsCancel, .dtorSetEv, .dtorRecv, .closeMembers,
       .consWriteFile, .consRecv, .consCheckCancel, .joinWriteTask]
      = some { queue := [], file := [headerLine], fileOpen := false, eventSet := true,
               cancelled := true, cpc := .done, mpc := .finished }
    ∧ formatLine ⟨1, toL "ts", toL "late message"⟩ ∉ [headerLine] := by
  exact ⟨by decide, by decide⟩

/-- C6: the persisted form of every record is one CSV line
`time,tid,"message"` whose quoted body is the message with every double
quote replaced by a single quote and one trailing newline removed — the body
never contains a raw double quote — and the claim's scenario (`Enable`,
`Write` of `contains "quotes" and trailing\n`, `Disable`) leaves the file
with exactly the header plus `ts,7,"contains 'quotes' and trailing"`. -/
theorem c6_csv_normalization :
    run initSys
      [.sendMsg ⟨7, toL "ts", toL "contains \"quotes\" and trailing" ++ [nl]⟩,
       .writeSetEvent, .ctsCancel, .dtorSetEv, .dtorRecv, .dtorWriteFile, .dtorRecv,
       .closeMembers, .consWake, .consRecv, .consCheckCancel, .joinWriteTask]
      = some { queue := [],
               file := [headerLine,
                 toL "ts,7," ++ [dq] ++ toL "contains 'quotes' and trailing" ++ [dq, nl]],
               fileOpen := false, eventSet := false, cancelled := true,
               cpc := .done, mpc := .finished }
    ∧ (∀ d : TraceData, formatLine d
        = d.time ++ [','] ++ (Nat.repr d.threadId).toList ++ [','] ++ [dq]
            ++ stripTrailingNewline (normalizeMessage d.message) ++ [dq, nl])
    ∧ (∀ m : List Char, dq ∉ stripTrailingNewline (normalizeMessage m)) := by
  refine ⟨by decide, fun d => rfl, dq_not_in_normalized⟩

/-- C9: calling `Enable` while a writer is enabled throws, the global writer
state is untouched, and subsequent writes still append to the first writer's
original file. -/
theorem c9_enable_twice_fails (p2 : List Char) (g : TraceGlobal) (t : TracerInst)
    (h : g.tracer = some t) :
    (enable p2 g).1 = g
    ∧ (enable p2 g).2.isSome
    ∧ (∀ d, (globalWrite d (enable p2 g).1).tracer
        = some { path := t.path, file := t.file ++ [formatLine d] }) := by
  refine ⟨by simp [enable, h], by simp [enable, h], ?_⟩
  intro d
  have h1 : (enable p2 g).1 = g := by simp [enable, h]
  rw [h1]
  simp [globalWrite, h]

/-- Witness for C9: enable a first writer, then a second `Enable` fails and
the first writer's file still receives records. -/
theorem c9_enable_twice_fails_witness :
    (enable (toL "second.csv") ⟨some ⟨toL "first.csv", [headerLine]⟩⟩).1
      = (⟨some ⟨toL "first.csv", [headerLine]⟩⟩ : TraceGlobal)
    ∧ (enable (toL "second.csv") ⟨some ⟨toL "first.csv", [headerLine]⟩⟩).2.isSome :=
  ⟨(c9_enable_twice_fails (toL "second.csv") _ _ rfl).1,
   (c9_enable_twice_fails (toL "second.csv") _ _ rfl).2.1⟩

end Trace

end GetToken
